import Mathlib

/-!
Verification of the statistical quality-control calculations of the
supplier-quality dashboard: the p-chart control-limit calculator
(src/pages/failure_analysis_hub.py), the Cpk process-capability
calculator (src/pages/supplier_deep_dive.py) and the weighted
multi-criteria scorer (src/pages/npi_and_sourcing.py).

The arithmetic formulas are embedded directly from the source lines;
rational arithmetic stands for Python float arithmetic, and `Real.sqrt`
for `np.sqrt`.  The validation layer of the three library entry points
(`controlLimits`, `capability`, `weightedScore`) is modelled from the
spec where the source applies the formulas only to generated in-range
data, as noted on each definition.
-/

/-- The single error kind of the error-handling design: `InvalidInput`,
covering every precondition violation. -/
inductive SQCError where
  | invalidInput
deriving DecidableEq

namespace SPC

/-- One row of the `lots` frame built in `generate_spc_data`
(src/pages/failure_analysis_hub.py line 34-36): a lot size and a defect
count.  Integers, so that out-of-range inputs (negative counts) are
expressible. -/
structure Sample where
  lot_size : ℤ
  defects : ℤ
deriving DecidableEq

/-- Validity of a sample sequence, from the spec data model: the sequence
is non-empty, every `lot_size` is positive and every defect count lies
between 0 and the lot size. -/
def validSamples (l : List Sample) : Bool :=
  !l.isEmpty &&
    l.all fun s =>
      decide (0 < s.lot_size) && decide (0 ≤ s.defects) && decide (s.defects ≤ s.lot_size)

/-- Sum of the `defects` column, as in `spc_df['defects'].sum()` (line 39). -/
def totalDefects (l : List Sample) : ℤ := (l.map Sample.defects).sum

/-- Sum of the `lot_size` column, as in `spc_df['lot_size'].sum()` (line 39). -/
def totalLots (l : List Sample) : ℤ := (l.map Sample.lot_size).sum

/-- `p_bar = spc_df['defects'].sum() / spc_df['lot_size'].sum()` (line 39). -/
def p_bar (l : List Sample) : ℚ := (totalDefects l : ℚ) / (totalLots l : ℚ)

/-- `n_bar = spc_df['lot_size'].mean()` (line 39). -/
def n_bar (l : List Sample) : ℚ := (totalLots l : ℚ) / (l.length : ℚ)

/-- `ucl = p_bar + 3 * np.sqrt((p_bar * (1 - p_bar)) / n_bar)` (line 40). -/
noncomputable def ucl (l : List Sample) : ℝ :=
  (p_bar l : ℝ) + 3 * Real.sqrt ((p_bar l : ℝ) * (1 - (p_bar l : ℝ)) / (n_bar l : ℝ))

/-- `lcl = max(0, p_bar - 3 * np.sqrt((p_bar * (1 - p_bar)) / n_bar))` (line 40). -/
noncomputable def lcl (l : List Sample) : ℝ :=
  max 0 ((p_bar l : ℝ) - 3 * Real.sqrt ((p_bar l : ℝ) * (1 - (p_bar l : ℝ)) / (n_bar l : ℝ)))

/-- The `p` column: `lots['defects'] / lots['lot_size']` (line 36). -/
def proportion (s : Sample) : ℚ := (s.defects : ℚ) / (s.lot_size : ℚ)

/-- The out-of-control flag:
`spc_df['ooc'] = (spc_df['p'] > ucl) | (spc_df['p'] < lcl)` (line 41). -/
def ooc (l : List Sample) (s : Sample) : Prop :=
  (proportion s : ℝ) > ucl l ∨ (proportion s : ℝ) < lcl l

/-- The record returned by the control-limit calculator (spec interface
`controlLimits(samples) -> {centerLine, ucl, lcl, flags}`; the flags are
the predicate `ooc`). -/
structure Limits where
  center : ℚ
  nbar : ℚ
  upper : ℝ
  lower : ℝ

/-- Modelled from the spec: the entry point `controlLimits` with its
`InvalidInput` gate (spec sections 4.1 and 7); the source applies the limit
formulas of lines 39-40 only to generated in-range data and has no
validation code.  The limit formulas themselves are those of the source. -/
noncomputable def controlLimits (l : List Sample) : Except SQCError Limits :=
  if validSamples l then .ok ⟨p_bar l, n_bar l, ucl l, lcl l⟩ else .error .invalidInput

end SPC

namespace Capability

/-- Modelled from the spec: the mean `mu` of the supplied measurements.
The source (src/pages/supplier_deep_dive.py line 60) uses a fixed
`mu = 0.455` instead of computing it from data. -/
def mean (samples : List ℚ) : ℚ := samples.sum / (samples.length : ℚ)

/-- Modelled from the spec: the sample variance of the measurements with
the n-1 denominator.  The source (line 60) uses a fixed `sigma = 0.015`
instead of computing it from data. -/
def sampleVariance (samples : List ℚ) : ℚ :=
  ((samples.map fun x => (x - mean samples) ^ 2).sum) / ((samples.length : ℚ) - 1)

/-- Modelled from the spec: the sample standard deviation, the square
root of the n-1 sample variance. -/
noncomputable def sigma (samples : List ℚ) : ℝ := Real.sqrt (sampleVariance samples)

/-- `cpu = (usl - mu) / (3 * sigma)` (src/pages/supplier_deep_dive.py line 61). -/
noncomputable def cpu (usl mu sigma : ℝ) : ℝ := (usl - mu) / (3 * sigma)

/-- `cpl = (mu - lsl) / (3 * sigma)` (line 61). -/
noncomputable def cpl (lsl mu sigma : ℝ) : ℝ := (mu - lsl) / (3 * sigma)

/-- `cpk = min(cpu, cpl)` (line 61). -/
noncomputable def cpk (usl lsl mu sigma : ℝ) : ℝ := min (cpu usl mu sigma) (cpl lsl mu sigma)

/-- The record returned by the capability calculator (spec interface
`capability(samples, usl, lsl) -> {mean, stddev, cpk}`). -/
structure CapResult where
  mu : ℚ
  sigma : ℝ
  cpu : ℝ
  cpl : ℝ
  cpk : ℝ

/-- Modelled from the spec: the entry point `capability(samples, usl, lsl)`
with its `InvalidInput` gate (fewer than 2 samples, `USL ≤ LSL`, or zero
sample deviation; spec sections 4.2 and 7).  The source has no validation
code and applies the CPU/CPL/Cpk formulas of line 61 to fixed `mu`,
`sigma`; those formulas are taken from the source unchanged. -/
noncomputable def capability (samples : List ℚ) (usl lsl : ℚ) : Except SQCError CapResult :=
  if samples.length < 2 ∨ usl ≤ lsl ∨ sampleVariance samples = 0 then .error .invalidInput
  else
    .ok ⟨mean samples, sigma samples,
      cpu usl (mean samples) (sigma samples),
      cpl lsl (mean samples) (sigma samples),
      cpk usl lsl (mean samples) (sigma samples)⟩

end Capability

namespace Sourcing

/-- One row of the supplier decision matrix after `calculate_scores`
(src/pages/npi_and_sourcing.py lines 42-48): the supplier name and its
four category sub-scores. -/
structure Candidate where
  name : String
  qms : ℚ
  tech : ℚ
  cost : ℚ
  scale : ℚ
deriving DecidableEq

/-- The four slider weights `w_qms`, `w_tech`, `w_scale`, `w_cost`
(lines 60-63); the sliders produce integer percentages in 0..100. -/
structure Weights where
  w_qms : ℕ
  w_tech : ℕ
  w_scale : ℕ
  w_cost : ℕ
deriving DecidableEq

/-- `total_weight = w_qms + w_tech + w_cost + w_scale` (line 64). -/
def total_weight (w : Weights) : ℕ := w.w_qms + w.w_tech + w.w_cost + w.w_scale

/-- The `Weighted_Score` column (line 72):
`QMS_Score*w_qms/100 + Tech_Score*w_tech/100 + Cost_Score*w_cost/100 + Scale_Score*w_scale/100`. -/
def Weighted_Score (w : Weights) (c : Candidate) : ℚ :=
  c.qms * (w.w_qms : ℚ) / 100 + c.tech * (w.w_tech : ℚ) / 100 +
    c.cost * (w.w_cost : ℚ) / 100 + c.scale * (w.w_scale : ℚ) / 100

/-- `final_df.sort_values("Weighted_Score", ascending=False)` (line 75):
a sort on the score column alone, descending, with no secondary key.
Embedded as a stable merge sort on the score, matching the behaviour of
the source's sort on equal-score runs of this size (ties keep their
input order). -/
def sort_values_desc (w : Weights) (cs : List Candidate) : List Candidate :=
  cs.mergeSort fun c d => decide (Weighted_Score w d ≤ Weighted_Score w c)

/-- The decision-matrix flow of lines 64-75: the weight gate
(`total_weight != 100` raises the error and stops before any score is
computed, lines 64-66), then the `Weighted_Score` column and the ranked
table.  This is the spec interface `weightedScore(candidates, weights) ->
rankedList`. -/
def weightedScore (w : Weights) (cs : List Candidate) : Except SQCError (List Candidate) :=
  if total_weight w = 100 then .ok (sort_values_desc w cs) else .error .invalidInput

end Sourcing

/-! ## Helper lemmas -/

/-- Two permuted lists that are both pairwise-ordered by an asymmetric
relation are equal. -/
theorem eq_of_perm_of_pairwise_asymm {α : Type} {r : α → α → Prop}
    (hr : ∀ a b, r a b → ¬ r b a) :
    ∀ {l₁ l₂ : List α}, l₁.Perm l₂ → l₁.Pairwise r → l₂.Pairwise r → l₁ = l₂ := by
  intro l₁
  induction l₁ with
  | nil => intro l₂ hp _ _; exact hp.nil_eq
  | cons a t ih =>
    intro l₂ hp h₁ h₂
    cases l₂ with
    | nil => exact absurd hp.symm.nil_eq (by simp)
    | cons b t₂ =>
      by_cases hab : a = b
      · subst hab
        rw [ih hp.cons_inv (List.Pairwise.of_cons h₁) (List.Pairwise.of_cons h₂)]
      · have ha : a ∈ t₂ := by
          have := hp.mem_iff.mp (List.mem_cons_self a t)
          simpa [hab] using this
        have hb : b ∈ t := by
          have hba : ¬ b = a := fun h => hab h.symm
          have := hp.symm.mem_iff.mp (List.mem_cons_self b t₂)
          simpa [hba] using this
        have hrba : r b a := (List.pairwise_cons.mp h₂).1 a ha
        have hrab : r a b := (List.pairwise_cons.mp h₁).1 b hb
        exact absurd hrba (hr a b hrab)

/-- The ranked list is a permutation of the candidate list. -/
theorem sort_values_desc_perm (w : Sourcing.Weights) (cs : List Sourcing.Candidate) :
    (Sourcing.sort_values_desc w cs).Perm cs :=
  List.mergeSort_perm cs _

/-- The ranked list is pairwise descending in weighted score. -/
theorem sort_values_desc_sorted (w : Sourcing.Weights) (cs : List Sourcing.Candidate) :
    (Sourcing.sort_values_desc w cs).Pairwise
      fun c d => Sourcing.Weighted_Score w d ≤ Sourcing.Weighted_Score w c := by
  have h := @List.sorted_mergeSort _
    (fun c d => decide (Sourcing.Weighted_Score w d ≤ Sourcing.Weighted_Score w c))
    (fun a b c hab hbc => by
      simp only [decide_eq_true_eq] at *
      exact le_trans hbc hab)
    (fun a b => by
      simp only [Bool.or_eq_true, decide_eq_true_eq]
      exact le_total _ _)
    cs
  exact h.imp fun hab => of_decide_eq_true hab

/-- A two-element list whose first score already dominates is left
unchanged by the ranking sort. -/
theorem sort_values_desc_pair (w : Sourcing.Weights) (c d : Sourcing.Candidate)
    (h : Sourcing.Weighted_Score w d ≤ Sourcing.Weighted_Score w c) :
    Sourcing.sort_values_desc w [c, d] = [c, d] := by
  apply List.mergeSort_of_sorted
  simp [List.pairwise_cons, h]

/-! ## Claims about the weighted multi-criteria scorer -/

/-- Claim C5: whenever the four weights do not sum to exactly 100, the
scorer reports `InvalidInput` and produces no ranked list (no score is
computed for any candidate). -/
theorem weightedScore_error_of_bad_weights (w : Sourcing.Weights)
    (cs : List Sourcing.Candidate) (h : Sourcing.total_weight w ≠ 100) :
    Sourcing.weightedScore w cs = .error .invalidInput := by
  rw [Sourcing.weightedScore, if_neg h]

/-- Claim C5 witness: the default sliders with the cost weight lowered to
9 sum to 99 and are rejected. -/
theorem weightedScore_error_of_bad_weights_witness :
    Sourcing.total_weight ⟨30, 40, 20, 9⟩ ≠ 100 ∧
    Sourcing.weightedScore ⟨30, 40, 20, 9⟩ [⟨"Future Foundries LLC", 60, 84, 76, 54⟩] =
      .error .invalidInput :=
  ⟨by decide, weightedScore_error_of_bad_weights _ _ (by decide)⟩

/-- Claim C7: with weights summing to 100 the weighted score of a
candidate is the sum over the four categories of sub-score times weight
over 100, and in the two-category scenario (weights 50/50 on QMS and
Tech, sub-scores 80 and 60, zero weight elsewhere) the score is exactly
70. -/
theorem Weighted_Score_eq_weighted_sum (w : Sourcing.Weights) (c : Sourcing.Candidate)
    (h : Sourcing.total_weight w = 100) :
    Sourcing.Weighted_Score w c =
      (c.qms * (w.w_qms : ℚ) + c.tech * (w.w_tech : ℚ) +
        c.cost * (w.w_cost : ℚ) + c.scale * (w.w_scale : ℚ)) / 100 ∧
    (w.w_qms = 50 → w.w_tech = 50 → w.w_cost = 0 → w.w_scale = 0 →
      c.qms = 80 → c.tech = 60 → Sourcing.Weighted_Score w c = 70) := by
  constructor
  · rw [Sourcing.Weighted_Score]; ring
  · intro h1 h2 h3 h4 h5 h6
    rw [Sourcing.Weighted_Score, h1, h2, h3, h4, h5, h6]
    norm_num

/-- Claim C7 witness: the scenario candidate scores exactly 70. -/
theorem Weighted_Score_eq_weighted_sum_witness :
    Sourcing.total_weight ⟨50, 50, 0, 0⟩ = 100 ∧
    Sourcing.Weighted_Score ⟨50, 50, 0, 0⟩ ⟨"X", 80, 60, 7, 9⟩ = 70 :=
  ⟨by decide,
    (Weighted_Score_eq_weighted_sum ⟨50, 50, 0, 0⟩ ⟨"X", 80, 60, 7, 9⟩ (by decide)).2
      rfl rfl rfl rfl rfl rfl⟩

/-- Claim C10: a candidate whose four sub-scores lie in [0, 100], scored
with (non-negative) weights summing to 100, has a weighted score in
[0, 100]. -/
theorem Weighted_Score_mem_Icc (w : Sourcing.Weights) (c : Sourcing.Candidate)
    (hq0 : 0 ≤ c.qms) (hq1 : c.qms ≤ 100) (ht0 : 0 ≤ c.tech) (ht1 : c.tech ≤ 100)
    (hc0 : 0 ≤ c.cost) (hc1 : c.cost ≤ 100) (hs0 : 0 ≤ c.scale) (hs1 : c.scale ≤ 100)
    (h : Sourcing.total_weight w = 100) :
    Sourcing.Weighted_Score w c ∈ Set.Icc (0 : ℚ) 100 := by
  have hcast : (w.w_qms : ℚ) + (w.w_tech : ℚ) + (w.w_cost : ℚ) + (w.w_scale : ℚ) = 100 := by
    rw [Sourcing.total_weight] at h
    exact_mod_cast congrArg (Nat.cast : ℕ → ℚ) h
  have hq : c.qms * (w.w_qms : ℚ) ≤ 100 * (w.w_qms : ℚ) :=
    mul_le_mul_of_nonneg_right hq1 (Nat.cast_nonneg _)
  have ht : c.tech * (w.w_tech : ℚ) ≤ 100 * (w.w_tech : ℚ) :=
    mul_le_mul_of_nonneg_right ht1 (Nat.cast_nonneg _)
  have hc : c.cost * (w.w_cost : ℚ) ≤ 100 * (w.w_cost : ℚ) :=
    mul_le_mul_of_nonneg_right hc1 (Nat.cast_nonneg _)
  have hs : c.scale * (w.w_scale : ℚ) ≤ 100 * (w.w_scale : ℚ) :=
    mul_le_mul_of_nonneg_right hs1 (Nat.cast_nonneg _)
  have hq2 : 0 ≤ c.qms * (w.w_qms : ℚ) := mul_nonneg hq0 (Nat.cast_nonneg _)
  have ht2 : 0 ≤ c.tech * (w.w_tech : ℚ) := mul_nonneg ht0 (Nat.cast_nonneg _)
  have hc2 : 0 ≤ c.cost * (w.w_cost : ℚ) := mul_nonneg hc0 (Nat.cast_nonneg _)
  have hs2 : 0 ≤ c.scale * (w.w_scale : ℚ) := mul_nonneg hs0 (Nat.cast_nonneg _)
  rw [Set.mem_Icc, Sourcing.Weighted_Score]
  constructor
  · linarith
  · linarith

/-- Claim C10 witness: a concrete in-range candidate stays in range. -/
theorem Weighted_Score_mem_Icc_witness :
    (0 : ℚ) ≤ 80 ∧
    Sourcing.Weighted_Score ⟨30, 40, 20, 10⟩ ⟨"X", 80, 60, 40, 20⟩ ∈ Set.Icc (0 : ℚ) 100 :=
  ⟨by norm_num,
    Weighted_Score_mem_Icc ⟨30, 40, 20, 10⟩ ⟨"X", 80, 60, 40, 20⟩
      (by norm_num) (by norm_num) (by norm_num) (by norm_num)
      (by norm_num) (by norm_num) (by norm_num) (by norm_num) (by decide)⟩

/-- Claim C3 counterexample: two candidates with equal weighted score are
returned in input order (B before A), not in ascending name order — the
code sorts on the score alone with no name tie-break. -/
theorem rank_tie_keeps_input_order :
    Sourcing.weightedScore ⟨25, 25, 25, 25⟩
      [⟨"B", 10, 10, 10, 10⟩, ⟨"A", 10, 10, 10, 10⟩] =
      .ok [⟨"B", 10, 10, 10, 10⟩, ⟨"A", 10, 10, 10, 10⟩] ∧
    Sourcing.Weighted_Score ⟨25, 25, 25, 25⟩ ⟨"B", 10, 10, 10, 10⟩ =
      Sourcing.Weighted_Score ⟨25, 25, 25, 25⟩ ⟨"A", 10, 10, 10, 10⟩ ∧
    ("A" : String) < "B" := by
  refine ⟨?_, by norm_num [Sourcing.Weighted_Score],
    by rw [String.lt_iff_toList_lt]; decide⟩
  rw [Sourcing.weightedScore,
    if_pos (show Sourcing.total_weight ⟨25, 25, 25, 25⟩ = 100 by decide),
    sort_values_desc_pair _ _ _ (by norm_num [Sourcing.Weighted_Score])]

/-- Claim C3 (amended): with weights summing to 100 the scorer returns
the candidate list sorted by descending weighted score (a permutation of
the input); candidates with equal score keep their input order — there is
no name tie-break. -/
theorem weightedScore_ranked_desc (w : Sourcing.Weights) (cs : List Sourcing.Candidate)
    (h : Sourcing.total_weight w = 100) :
    Sourcing.weightedScore w cs = .ok (Sourcing.sort_values_desc w cs) ∧
    (Sourcing.sort_values_desc w cs).Perm cs ∧
    (Sourcing.sort_values_desc w cs).Pairwise
      (fun c d => Sourcing.Weighted_Score w d ≤ Sourcing.Weighted_Score w c) := by
  exact ⟨by rw [Sourcing.weightedScore, if_pos h],
    sort_values_desc_perm w cs, sort_values_desc_sorted w cs⟩

/-- Claim C3 witness: a concrete two-candidate ranking. -/
theorem weightedScore_ranked_desc_witness :
    Sourcing.total_weight ⟨25, 25, 25, 25⟩ = 100 ∧
    Sourcing.weightedScore ⟨25, 25, 25, 25⟩
        [⟨"X", 20, 20, 20, 20⟩, ⟨"Y", 40, 40, 40, 40⟩] =
      .ok (Sourcing.sort_values_desc ⟨25, 25, 25, 25⟩
        [⟨"X", 20, 20, 20, 20⟩, ⟨"Y", 40, 40, 40, 40⟩]) :=
  ⟨by decide,
    (weightedScore_ranked_desc ⟨25, 25, 25, 25⟩ _ (by decide)).1⟩

/-- Claim C9 counterexample: with two equal-score candidates the ranking
depends on the input order, so the scorer is not invariant under
permutation of the candidate list. -/
theorem rank_sensitive_to_order_on_ties :
    Sourcing.sort_values_desc ⟨25, 25, 25, 25⟩
        [⟨"B", 10, 10, 10, 10⟩, ⟨"A", 10, 10, 10, 10⟩] ≠
      Sourcing.sort_values_desc ⟨25, 25, 25, 25⟩
        [⟨"A", 10, 10, 10, 10⟩, ⟨"B", 10, 10, 10, 10⟩] := by
  rw [sort_values_desc_pair _ _ _ (by norm_num [Sourcing.Weighted_Score]),
    sort_values_desc_pair _ _ _ (by norm_num [Sourcing.Weighted_Score])]
  decide

/-- Claim C9 (amended): when all weighted scores are pairwise distinct,
the ranked list is unchanged by any permutation of the input candidate
list.  (The weight input is a record of four named slider values, so
there is no key order to permute.)  With ties the output depends on
input order, as the counterexample shows. -/
theorem rank_perm_invariant_of_distinct (w : Sourcing.Weights)
    (l₁ l₂ : List Sourcing.Candidate) (hp : l₁.Perm l₂)
    (hd : l₁.Pairwise fun c d => Sourcing.Weighted_Score w c ≠ Sourcing.Weighted_Score w d) :
    Sourcing.sort_values_desc w l₁ = Sourcing.sort_values_desc w l₂ := by
  have hsym : ∀ {x y : Sourcing.Candidate},
      Sourcing.Weighted_Score w x ≠ Sourcing.Weighted_Score w y →
      Sourcing.Weighted_Score w y ≠ Sourcing.Weighted_Score w x := fun h => h.symm
  have hd₂ := (hp.pairwise_iff hsym).mp hd
  have hne₁ := ((sort_values_desc_perm w l₁).pairwise_iff hsym).mpr hd
  have hne₂ := ((sort_values_desc_perm w l₂).pairwise_iff hsym).mpr hd₂
  have hstrict₁ := ((sort_values_desc_sorted w l₁).and hne₁).imp
    (S := fun c d => Sourcing.Weighted_Score w d < Sourcing.Weighted_Score w c)
    fun hcd => lt_of_le_of_ne hcd.1 (Ne.symm hcd.2)
  have hstrict₂ := ((sort_values_desc_sorted w l₂).and hne₂).imp
    (S := fun c d => Sourcing.Weighted_Score w d < Sourcing.Weighted_Score w c)
    fun hcd => lt_of_le_of_ne hcd.1 (Ne.symm hcd.2)
  exact eq_of_perm_of_pairwise_asymm (fun a b h1 h2 => absurd h2 (lt_asymm h1))
    ((sort_values_desc_perm w l₁).trans (hp.trans (sort_values_desc_perm w l₂).symm))
    hstrict₁ hstrict₂

/-- Claim C9 witness: two distinct-score candidates rank identically from
either input order. -/
theorem rank_perm_invariant_of_distinct_witness :
    Sourcing.sort_values_desc ⟨25, 25, 25, 25⟩
        [⟨"X", 20, 20, 20, 20⟩, ⟨"Y", 40, 40, 40, 40⟩] =
      Sourcing.sort_values_desc ⟨25, 25, 25, 25⟩
        [⟨"Y", 40, 40, 40, 40⟩, ⟨"X", 20, 20, 20, 20⟩] :=
  rank_perm_invariant_of_distinct ⟨25, 25, 25, 25⟩ _ _
    (List.Perm.swap _ _ _)
    (by simp [List.pairwise_cons]; norm_num [Sourcing.Weighted_Score])

/-! ## Claims about the control-limit calculator -/

/-- The pooled proportion for the single sample {lot_size 1000, defects 10}. -/
theorem p_bar_sample1000 : SPC.p_bar [⟨1000, 10⟩] = 1/100 := by
  norm_num [SPC.p_bar, SPC.totalDefects, SPC.totalLots]

/-- The mean lot size for the single sample {lot_size 1000, defects 10}. -/
theorem n_bar_sample1000 : SPC.n_bar [⟨1000, 10⟩] = 1000 := by
  norm_num [SPC.n_bar, SPC.totalLots]

/-- The argument of the square root for the single sample {1000, 10}:
p̄(1-p̄)/n̄ = (1/100)(99/100)/1000 = 99/10^7. -/
theorem sqrtArg_sample1000 :
    (SPC.p_bar [⟨1000, 10⟩] : ℝ) * (1 - (SPC.p_bar [⟨1000, 10⟩] : ℝ)) /
      (SPC.n_bar [⟨1000, 10⟩] : ℝ) = 99/10^7 := by
  rw [p_bar_sample1000, n_bar_sample1000]
  push_cast
  norm_num

/-- Upper bound on the square-root term: √(99·10⁻⁷) < 0.00315. -/
theorem sqrt_sample1000_ub : Real.sqrt (99/10^7) < 63/20000 := by
  rw [Real.sqrt_lt' (by norm_num)]
  norm_num

/-- Lower bound on the square-root term: 47/15000 < √(99·10⁻⁷). -/
theorem sqrt_sample1000_lb : (47/15000 : ℝ) < Real.sqrt (99/10^7) := by
  rw [Real.lt_sqrt (by norm_num)]
  norm_num

/-- The UCL of the single sample {1000, 10} in closed form. -/
theorem ucl_sample1000 :
    SPC.ucl [⟨1000, 10⟩] = 1/100 + 3 * Real.sqrt (99/10^7) := by
  rw [SPC.ucl, sqrtArg_sample1000, p_bar_sample1000]
  norm_num

/-- The LCL of the single sample {1000, 10} in closed form. -/
theorem lcl_sample1000 :
    SPC.lcl [⟨1000, 10⟩] = max 0 (1/100 - 3 * Real.sqrt (99/10^7)) := by
  rw [SPC.lcl, sqrtArg_sample1000, p_bar_sample1000]
  norm_num

/-- Claim C1 counterexample: for the single sample {lot_size 1000,
defects 10} the calculator's LCL is strictly positive — not 0 as the
claim states — and its UCL is below 0.02, so not ≈ 0.0395 either.
(UCL is in fact ≈ 0.0194 and LCL ≈ 0.00056.) -/
theorem spc_sample1000_contradicts_claim :
    0 < SPC.lcl [⟨1000, 10⟩] ∧ SPC.ucl [⟨1000, 10⟩] < 2/100 := by
  have hub := sqrt_sample1000_ub
  constructor
  · rw [lcl_sample1000]
    exact lt_max_iff.mpr (Or.inr (by linarith))
  · rw [ucl_sample1000]
    linarith

/-- Claim C1 (amended): on every valid sample sequence the calculator
returns p̄ = Σdefects/Σlot_size, n̄ = mean lot size,
UCL = p̄ + 3√(p̄(1-p̄)/n̄), LCL = max(0, p̄ - 3√(p̄(1-p̄)/n̄)), and flags a
sample out of control exactly when its proportion defective lies outside
the closed interval [LCL, UCL]; for the single sample {lot_size 1000,
defects 10} it returns p̄ = 0.01, n̄ = 1000, UCL ≈ 0.0194 (strictly
between 0.0194 and 0.0195) and LCL strictly positive below 0.0006. -/
theorem spc_controlLimits_values (l : List SPC.Sample) (h : SPC.validSamples l = true) :
    SPC.controlLimits l = .ok ⟨SPC.p_bar l, SPC.n_bar l, SPC.ucl l, SPC.lcl l⟩ ∧
    SPC.p_bar l = (SPC.totalDefects l : ℚ) / (SPC.totalLots l : ℚ) ∧
    SPC.n_bar l = (SPC.totalLots l : ℚ) / (l.length : ℚ) ∧
    SPC.ucl l = (SPC.p_bar l : ℝ) +
      3 * Real.sqrt ((SPC.p_bar l : ℝ) * (1 - (SPC.p_bar l : ℝ)) / (SPC.n_bar l : ℝ)) ∧
    SPC.lcl l = max 0 ((SPC.p_bar l : ℝ) -
      3 * Real.sqrt ((SPC.p_bar l : ℝ) * (1 - (SPC.p_bar l : ℝ)) / (SPC.n_bar l : ℝ))) ∧
    (∀ s : SPC.Sample,
      SPC.ooc l s ↔ (SPC.proportion s : ℝ) ∉ Set.Icc (SPC.lcl l) (SPC.ucl l)) ∧
    (l = [⟨1000, 10⟩] →
      SPC.p_bar l = 1/100 ∧ SPC.n_bar l = 1000 ∧
      0 < SPC.lcl l ∧ SPC.lcl l < 6/10000 ∧
      194/10000 < SPC.ucl l ∧ SPC.ucl l < 195/10000) := by
  refine ⟨by rw [SPC.controlLimits, if_pos h], rfl, rfl, rfl, rfl, ?_, ?_⟩
  · intro s
    rw [SPC.ooc, Set.mem_Icc, not_and_or, not_le, not_le]
    exact or_comm
  · rintro rfl
    have hub := sqrt_sample1000_ub
    have hlb := sqrt_sample1000_lb
    refine ⟨p_bar_sample1000, n_bar_sample1000, ?_, ?_, ?_, ?_⟩
    · rw [lcl_sample1000]
      exact lt_max_iff.mpr (Or.inr (by linarith))
    · rw [lcl_sample1000]
      exact max_lt_iff.mpr ⟨by norm_num, by linarith⟩
    · rw [ucl_sample1000]
      linarith
    · rw [ucl_sample1000]
      linarith

/-- Claim C1 witness: the scenario sample sequence is valid and the
amended values hold for it. -/
theorem spc_controlLimits_values_witness :
    SPC.validSamples [⟨1000, 10⟩] = true ∧
    SPC.p_bar [⟨1000, 10⟩] = 1/100 ∧ 0 < SPC.lcl [⟨1000, 10⟩] :=
  ⟨by decide,
    ((spc_controlLimits_values _ (by decide)).2.2.2.2.2.2 rfl).1,
    ((spc_controlLimits_values _ (by decide)).2.2.2.2.2.2 rfl).2.2.1⟩

/-- Claim C4: the control-limit calculator fails with `InvalidInput`
(returning no limits or flags) whenever the sample sequence is empty,
some lot size is ≤ 0, or some defect count is negative or exceeds its
lot size. -/
theorem spc_controlLimits_invalid (l : List SPC.Sample)
    (h : l = [] ∨ ∃ s ∈ l, s.lot_size ≤ 0 ∨ s.defects < 0 ∨ s.lot_size < s.defects) :
    SPC.controlLimits l = .error .invalidInput := by
  rw [SPC.controlLimits, if_neg]
  intro hv
  rcases h with rfl | ⟨s, hs, hbad⟩
  · simp [SPC.validSamples] at hv
  · simp only [SPC.validSamples, Bool.and_eq_true, List.all_eq_true,
      decide_eq_true_eq] at hv
    obtain ⟨-, hall⟩ := hv
    obtain ⟨⟨h1, h2⟩, h3⟩ := hall s hs
    rcases hbad with hb | hb | hb <;> omega

/-- Claim C4 witness: a sample with lot size 0 is rejected. -/
theorem spc_controlLimits_invalid_witness :
    SPC.controlLimits [⟨0, 5⟩] = .error .invalidInput :=
  spc_controlLimits_invalid _
    (Or.inr ⟨⟨0, 5⟩, List.mem_singleton.mpr rfl, Or.inl (by norm_num)⟩)

/-- Claim C8: on every valid sample sequence, LCL ≤ center line ≤ UCL,
the center line being the pooled proportion p̄. -/
theorem spc_lcl_le_center_le_ucl (l : List SPC.Sample) (h : SPC.validSamples l = true) :
    SPC.lcl l ≤ (SPC.p_bar l : ℝ) ∧ (SPC.p_bar l : ℝ) ≤ SPC.ucl l := by
  simp only [SPC.validSamples, Bool.and_eq_true, List.all_eq_true,
    decide_eq_true_eq] at h
  obtain ⟨-, hall⟩ := h
  have hd : 0 ≤ (SPC.totalDefects l : ℚ) := by
    rw [SPC.totalDefects]
    have : (0 : ℤ) ≤ (l.map SPC.Sample.defects).sum := by
      apply List.sum_nonneg
      intro x hx
      obtain ⟨s, hs, rfl⟩ := List.mem_map.mp hx
      exact ((hall s hs).1).2
    exact_mod_cast this
  have ht : 0 ≤ (SPC.totalLots l : ℚ) := by
    rw [SPC.totalLots]
    have : (0 : ℤ) ≤ (l.map SPC.Sample.lot_size).sum := by
      apply List.sum_nonneg
      intro x hx
      obtain ⟨s, hs, rfl⟩ := List.mem_map.mp hx
      exact le_of_lt ((hall s hs).1).1
    exact_mod_cast this
  have hp : (0 : ℝ) ≤ (SPC.p_bar l : ℝ) := by
    have : (0 : ℚ) ≤ SPC.p_bar l := div_nonneg hd ht
    exact_mod_cast this
  have hs : (0 : ℝ) ≤ 3 * Real.sqrt
      ((SPC.p_bar l : ℝ) * (1 - (SPC.p_bar l : ℝ)) / (SPC.n_bar l : ℝ)) := by
    positivity
  constructor
  · exact max_le hp (by linarith)
  · rw [SPC.ucl]
    linarith

/-- Claim C8 witness: the bounds hold for the scenario sample. -/
theorem spc_lcl_le_center_le_ucl_witness :
    SPC.lcl [⟨1000, 10⟩] ≤ (SPC.p_bar [⟨1000, 10⟩] : ℝ) ∧
    (SPC.p_bar [⟨1000, 10⟩] : ℝ) ≤ SPC.ucl [⟨1000, 10⟩] :=
  spc_lcl_le_center_le_ucl _ (by decide)

/-! ## Claims about the process-capability calculator -/

/-- The n-1 sample variance is never negative. -/
theorem sampleVariance_nonneg (samples : List ℚ) :
    0 ≤ Capability.sampleVariance samples := by
  cases samples with
  | nil => norm_num [Capability.sampleVariance]
  | cons a t =>
    apply div_nonneg
    · apply List.sum_nonneg
      intro x hx
      obtain ⟨y, -, rfl⟩ := List.mem_map.mp hx
      positivity
    · simp only [List.length_cons]
      push_cast
      linarith [Nat.cast_nonneg (α := ℚ) t.length]

/-- Claim C2: for at least two measurements with USL > LSL and
non-degenerate spread, the capability calculator returns μ = mean of the
measurements, σ = the n-1 sample standard deviation,
CPU = (USL-μ)/(3σ), CPL = (μ-LSL)/(3σ) and Cpk = min(CPU, CPL); when μ is
exactly centered and 6σ = USL-LSL, the returned Cpk is 1. -/
theorem cap_capability_formulas (samples : List ℚ) (usl lsl : ℚ)
    (h2 : 2 ≤ samples.length) (hl : lsl < usl)
    (hv : Capability.sampleVariance samples ≠ 0) :
    Capability.capability samples usl lsl =
      .ok ⟨Capability.mean samples, Capability.sigma samples,
        Capability.cpu usl (Capability.mean samples) (Capability.sigma samples),
        Capability.cpl lsl (Capability.mean samples) (Capability.sigma samples),
        Capability.cpk usl lsl (Capability.mean samples) (Capability.sigma samples)⟩ ∧
    Capability.mean samples = samples.sum / (samples.length : ℚ) ∧
    Capability.sampleVariance samples =
      ((samples.map fun x => (x - Capability.mean samples) ^ 2).sum) /
        ((samples.length : ℚ) - 1) ∧
    Capability.sigma samples = Real.sqrt ((Capability.sampleVariance samples : ℝ)) ∧
    Capability.cpu usl (Capability.mean samples) (Capability.sigma samples) =
      ((usl : ℝ) - (Capability.mean samples : ℝ)) / (3 * Capability.sigma samples) ∧
    Capability.cpl lsl (Capability.mean samples) (Capability.sigma samples) =
      ((Capability.mean samples : ℝ) - (lsl : ℝ)) / (3 * Capability.sigma samples) ∧
    Capability.cpk usl lsl (Capability.mean samples) (Capability.sigma samples) =
      min (Capability.cpu usl (Capability.mean samples) (Capability.sigma samples))
        (Capability.cpl lsl (Capability.mean samples) (Capability.sigma samples)) ∧
    ((Capability.mean samples : ℝ) = ((usl : ℝ) + (lsl : ℝ)) / 2 →
      6 * Capability.sigma samples = (usl : ℝ) - (lsl : ℝ) →
      Capability.cpk usl lsl (Capability.mean samples) (Capability.sigma samples) = 1) := by
  have hguard : ¬ (samples.length < 2 ∨ usl ≤ lsl ∨ Capability.sampleVariance samples = 0) := by
    simp only [not_or, not_lt, not_le]
    exact ⟨h2, hl, hv⟩
  refine ⟨by rw [Capability.capability, if_neg hguard], rfl, rfl, rfl, rfl, rfl, rfl, ?_⟩
  intro hmean hsig
  have hvpos : 0 < Capability.sampleVariance samples :=
    lt_of_le_of_ne (sampleVariance_nonneg samples) (Ne.symm hv)
  have hσ : 0 < Capability.sigma samples := by
    rw [Capability.sigma]
    exact Real.sqrt_pos.mpr (by exact_mod_cast hvpos)
  have h3σ : (3 : ℝ) * Capability.sigma samples ≠ 0 := by positivity
  rw [Capability.cpk, Capability.cpu, Capability.cpl,
    show (usl : ℝ) - (Capability.mean samples : ℝ) = 3 * Capability.sigma samples by
      linarith,
    show (Capability.mean samples : ℝ) - (lsl : ℝ) = 3 * Capability.sigma samples by
      linarith,
    div_self h3σ]
  exact min_self 1

/-- Claim C2 witness: the measurements [0, 1, 2] with USL = 4, LSL = -2
are centered with 6σ = USL - LSL and get Cpk = 1. -/
theorem cap_capability_formulas_witness :
    2 ≤ ([0, 1, 2] : List ℚ).length ∧
    Capability.cpk 4 (-2) (Capability.mean [0, 1, 2]) (Capability.sigma [0, 1, 2]) = 1 := by
  have hv : Capability.sampleVariance [0, 1, 2] = 1 := by
    norm_num [Capability.sampleVariance, Capability.mean]
  have hm : Capability.mean [0, 1, 2] = 1 := by norm_num [Capability.mean]
  have hs : Capability.sigma [0, 1, 2] = 1 := by
    rw [Capability.sigma, hv]
    norm_num [Real.sqrt_one]
  refine ⟨by norm_num, ?_⟩
  have hres := (cap_capability_formulas [0, 1, 2] 4 (-2) (by norm_num) (by norm_num)
      (by rw [hv]; norm_num)).2.2.2.2.2.2.2
    (by rw [hm]; norm_num) (by rw [hs]; norm_num)
  exact_mod_cast hres

/-- Claim C6: the capability calculator fails fast with `InvalidInput`
when σ = 0, when fewer than 2 samples are supplied, or when USL ≤ LSL;
whenever it returns a result the σ used in the CPU/CPL divisions is
strictly positive, so no division by zero is reached. -/
theorem cap_capability_no_div_zero (samples : List ℚ) (usl lsl : ℚ) :
    ((Capability.sigma samples = 0 ∨ samples.length < 2 ∨ usl ≤ lsl) →
      Capability.capability samples usl lsl = .error .invalidInput) ∧
    ∀ r : Capability.CapResult,
      Capability.capability samples usl lsl = .ok r → 0 < r.sigma := by
  constructor
  · intro h
    rw [Capability.capability, if_pos]
    rcases h with hσ | hn | hu
    · right; right
      rw [Capability.sigma] at hσ
      have : ((Capability.sampleVariance samples : ℚ) : ℝ) ≤ 0 :=
        Real.sqrt_eq_zero'.mp hσ
      have h0 : Capability.sampleVariance samples ≤ 0 := by exact_mod_cast this
      exact le_antisymm h0 (sampleVariance_nonneg samples)
    · left; exact hn
    · right; left; exact hu
  · intro r hr
    by_cases hg : samples.length < 2 ∨ usl ≤ lsl ∨ Capability.sampleVariance samples = 0
    · rw [Capability.capability, if_pos hg] at hr
      exact absurd hr (by simp)
    · rw [Capability.capability, if_neg hg] at hr
      simp only [not_or, not_lt, not_le] at hg
      obtain ⟨h2, hl, hv⟩ := hg
      have hvpos : 0 < Capability.sampleVariance samples :=
        lt_of_le_of_ne (sampleVariance_nonneg samples) (Ne.symm hv)
      injection hr with h
      subst h
      show 0 < Capability.sigma samples
      rw [Capability.sigma]
      exact Real.sqrt_pos.mpr (by exact_mod_cast hvpos)

/-- Claim C6 witness: two identical measurements give σ = 0 and are
rejected. -/
theorem cap_capability_no_div_zero_witness :
    Capability.capability [5, 5] 1 0 = .error .invalidInput := by
  have hv : Capability.sampleVariance [5, 5] = 0 := by
    norm_num [Capability.sampleVariance, Capability.mean]
  exact (cap_capability_no_div_zero [5, 5] 1 0).1
    (Or.inl (by rw [Capability.sigma, hv]; norm_num [Real.sqrt_zero]))

